import Mathlib

/-!
Shallow embedding of the replicated key-value store (ABD and blocking
register protocols) and proofs about its specification claims.

The embedding mirrors the C++ sources:
* `src/protocol/abd.cpp` / `abd.h` — ABD server register,
* `src/protocol/blocking.cpp` / `blocking.h` — blocking server register,
* `src/common/config.cpp` — configuration validation,
* `src/client/abd_client_impl.cpp` — ABD client engine (logical clock),
* `src/client/blocking_client_impl.cpp` — blocking client engine.

Wall-clock readings (`std::chrono` calls) are environment inputs: every
operation that reads a clock takes the reading as an explicit argument.
`std::map` is embedded as an association list with replace-on-insert.
`int64_t`/`int32_t` values are embedded as `Int` (no claim depends on
machine-width wraparound).
-/

namespace KVStore

/-- Lookup in an association list, mirroring `std::map::find`. -/
def mapFind {α : Type} (m : List (String × α)) (k : String) : Option α :=
  match m with
  | [] => none
  | (k', v') :: rest => if k' = k then some v' else mapFind rest k

/-- Insert-or-replace in an association list, mirroring `m[k] = v`. -/
def mapInsert {α : Type} (m : List (String × α)) (k : String) (v : α) :
    List (String × α) :=
  match m with
  | [] => [(k, v)]
  | (k', v') :: rest =>
      if k' = k then (k, v) :: rest else (k', v') :: mapInsert rest k v

/-- Storage entry `(value, timestamp)`, from `ValueEntry` in `abd.h` /
`blocking.h`. -/
structure ValueEntry where
  value : String
  timestamp : Int
  deriving DecidableEq, Repr

/-- ABD server state, from `class ABDProtocol` in `abd.h`: the keyed store
and the timestamp-generator state `last_timestamp_`. -/
structure ABDProtocol where
  store : List (String × ValueEntry)
  last_timestamp : Int
  deriving DecidableEq, Repr

/-- Constructor `ABDProtocol::ABDProtocol()`: empty store, `last_timestamp_ = 0`. -/
def ABDProtocol.init : ABDProtocol := ⟨[], 0⟩

/-- Result type of `ABDProtocol::Read`. -/
structure ABDReadResult where
  value : String
  timestamp : Int
  success : Bool
  deriving DecidableEq, Repr

/-- Result type of `ABDProtocol::Write`. -/
structure ABDWriteResult where
  success : Bool
  timestamp : Int
  deriving DecidableEq, Repr

/-- Embedding of `ABDProtocol::GenerateTimestamp` (abd.cpp:91): `current` is the
wall-clock milliseconds reading taken inside the call.  Returns the
generated timestamp together with the updated server state. -/
def ABDProtocol.GenerateTimestamp (s : ABDProtocol) (current : Int) :
    Int × ABDProtocol :=
  if current > s.last_timestamp then
    (current, { s with last_timestamp := current })
  else
    (s.last_timestamp + 1, { s with last_timestamp := s.last_timestamp + 1 })

/-- Embedding of `ABDProtocol::Read` (abd.cpp:17): returns the stored pair, or
`("", 0)` when the key is absent, with `success = true` either way.  The
`client_timestamp` argument is accepted and ignored, as in the source. -/
def ABDProtocol.Read (s : ABDProtocol) (key : String)
    (client_timestamp : Int) : ABDReadResult :=
  let _ := client_timestamp
  match mapFind s.store key with
  | some e => ⟨e.value, e.timestamp, true⟩
  | none => ⟨"", 0, true⟩

/-- Embedding of `ABDProtocol::Write` (abd.cpp:44): generates a server timestamp, takes
the max with the client timestamp, stores `(value, final_ts)` and returns
`final_ts` with `success = true`.  `current` is the wall-clock reading of
the embedded `GenerateTimestamp` call. -/
def ABDProtocol.Write (s : ABDProtocol) (key value : String)
    (client_timestamp : Int) (current : Int) :
    ABDWriteResult × ABDProtocol :=
  let (server_timestamp, s1) := s.GenerateTimestamp current
  let final_timestamp := max client_timestamp server_timestamp
  (⟨true, final_timestamp⟩,
   { s1 with store := mapInsert s1.store key ⟨value, final_timestamp⟩ })

/-- Embedding of `ABDProtocol::GetTimestamp` (abd.cpp:71): stored timestamp, or 0 when
the key is absent. -/
def ABDProtocol.GetTimestamp (s : ABDProtocol) (key : String) : Int :=
  match mapFind s.store key with
  | some e => e.timestamp
  | none => 0

/-- Lock entry, from `BlockingProtocol::LockEntry` in `blocking.h`: owner
client id plus the `steady_clock` instant of acquisition.  Instants are
embedded as `Int` seconds, so the `duration_cast<seconds>` of a difference
of instants is plain subtraction. -/
structure LockEntry where
  owner_id : Int
  acquired_at : Int
  deriving DecidableEq, Repr

/-- Constant `BlockingProtocol::LOCK_TIMEOUT_SECONDS` (blocking.h:120). -/
def LOCK_TIMEOUT_SECONDS : Int := 30

/-- Blocking server state, from `class BlockingProtocol` in `blocking.h`:
keyed store, lock table and `last_timestamp_`. -/
structure BlockingProtocol where
  store : List (String × ValueEntry)
  locks : List (String × LockEntry)
  last_timestamp : Int
  deriving DecidableEq, Repr

/-- Constructor `BlockingProtocol::BlockingProtocol()`. -/
def BlockingProtocol.init : BlockingProtocol := ⟨[], [], 0⟩

/-- Result type of `BlockingProtocol::AcquireLock`. -/
structure LockResult where
  granted : Bool
  timestamp : Int
  deriving DecidableEq, Repr

/-- Embedding of `BlockingProtocol::GenerateTimestamp` (blocking.cpp:171), identical to
the ABD generator. -/
def BlockingProtocol.GenerateTimestamp (s : BlockingProtocol) (current : Int) :
    Int × BlockingProtocol :=
  if current > s.last_timestamp then
    (current, { s with last_timestamp := current })
  else
    (s.last_timestamp + 1, { s with last_timestamp := s.last_timestamp + 1 })

/-- Embedding of `BlockingProtocol::AcquireLock` (blocking.cpp:17).  `now` is the
`steady_clock` reading of the call (one instant serves for both the
elapsed-time check and any fresh `LockEntry`); `wall_ts` is the
`kvstore::GetCurrentTimestamp()` wall-clock reading that is returned in
the result's `timestamp` field. -/
def BlockingProtocol.AcquireLock (s : BlockingProtocol) (key : String)
    (client_id : Int) (now wall_ts : Int) : LockResult × BlockingProtocol :=
  match mapFind s.locks key with
  | some entry =>
      if now - entry.acquired_at > LOCK_TIMEOUT_SECONDS then
        (⟨true, wall_ts⟩,
         { s with locks := mapInsert s.locks key ⟨client_id, now⟩ })
      else if entry.owner_id = client_id then
        (⟨true, wall_ts⟩, s)
      else
        (⟨false, wall_ts⟩, s)
  | none =>
      (⟨true, wall_ts⟩,
       { s with locks := mapInsert s.locks key ⟨client_id, now⟩ })

/-- Removal of a binding from an association list, mirroring
`std::map::erase` of a found iterator. -/
def mapErase {α : Type} (m : List (String × α)) (k : String) :
    List (String × α) :=
  match m with
  | [] => []
  | (k', v') :: rest => if k' = k then rest else (k', v') :: mapErase rest k

/-- Embedding of `BlockingProtocol::ReleaseLock` (blocking.cpp:61): erase the entry iff
present and owned by `client_id`. -/
def BlockingProtocol.ReleaseLock (s : BlockingProtocol) (key : String)
    (client_id : Int) : Bool × BlockingProtocol :=
  match mapFind s.locks key with
  | some entry =>
      if entry.owner_id = client_id then
        (true, { s with locks := mapErase s.locks key })
      else (false, s)
  | none => (false, s)

/-- The lock-ownership guard shared by `BlockingProtocol::Read` and
`BlockingProtocol::Write` (blocking.cpp:84 and blocking.cpp:117):
`lock_it != locks_.end() && lock_it->second.owner_id == client_id`. -/
def BlockingProtocol.ownsLock (s : BlockingProtocol) (key : String)
    (client_id : Int) : Bool :=
  match mapFind s.locks key with
  | some entry => entry.owner_id = client_id
  | none => false

/-- Embedding of `BlockingProtocol::Read` (blocking.cpp:74): requires lock ownership;
then returns the stored pair or `("", 0)` for an absent key. -/
def BlockingProtocol.Read (s : BlockingProtocol) (key : String)
    (client_id : Int) : ABDReadResult :=
  if s.ownsLock key client_id then
    match mapFind s.store key with
    | some e => ⟨e.value, e.timestamp, true⟩
    | none => ⟨"", 0, true⟩
  else ⟨"", 0, false⟩

/-- Embedding of `BlockingProtocol::Write` (blocking.cpp:106): requires lock ownership;
then performs the same max-of-timestamps store update as the ABD server.
`current` is the wall-clock reading of the `GenerateTimestamp` call. -/
def BlockingProtocol.Write (s : BlockingProtocol) (key value : String)
    (client_timestamp : Int) (client_id : Int) (current : Int) :
    ABDWriteResult × BlockingProtocol :=
  if s.ownsLock key client_id then
    let (server_timestamp, s1) := s.GenerateTimestamp current
    let final_timestamp := max client_timestamp server_timestamp
    (⟨true, final_timestamp⟩,
     { s1 with store := mapInsert s1.store key ⟨value, final_timestamp⟩ })
  else (⟨false, 0⟩, s)

/-- Embedding of `BlockingProtocol::GetTimestamp` (blocking.cpp:136). -/
def BlockingProtocol.GetTimestamp (s : BlockingProtocol) (key : String) : Int :=
  match mapFind s.store key with
  | some e => e.timestamp
  | none => 0

/-- One server in the configuration, from `ServerInfo` in `config.h`. -/
structure ServerInfo where
  id : Int
  host : String
  port : Int
  deriving DecidableEq, Repr

/-- Configuration fields relevant to validation, from `class Config` in
`config.h`. -/
structure Config where
  servers : List ServerInfo
  read_quorum : Int
  write_quorum : Int
  num_replicas : Int
  deriving DecidableEq, Repr

/-- Embedding of `Config::Validate` (config.cpp:139): fails on an empty server list and
on non-positive quorums; everything else (including quorums larger than
the server count, and `read_quorum + write_quorum ≤ |servers|`) at most
prints a warning and returns `true`. -/
def Config.Validate (c : Config) : Bool :=
  if c.servers.isEmpty then false
  else if c.read_quorum ≤ 0 ∨ c.write_quorum ≤ 0 then false
  else true

/-! The ABD client engine (`abd_client_impl.cpp`).

The client state is the logical clock `client_timestamp_`.  RPC outcomes
are environment inputs: a per-replica list of `Option` replies, `none`
standing for a failed RPC or an unsuccessful reply.  The `std::async`
fan-out is sequentialized in replica order; this fixes one interleaving of
the mutex-protected `UpdateTimestamp` calls. -/

/-- Embedding of `ABDClientImpl::UpdateTimestamp` (abd_client_impl.cpp:99), acting on
the clock value: raise to `t` if larger, then increment. -/
def updateTimestamp (clock t : Int) : Int :=
  (if t > clock then t else clock) + 1

/-- Clock after a sequence of `UpdateTimestamp` calls. -/
def raiseAll (clock : Int) (rs : List Int) : Int :=
  rs.foldl updateTimestamp clock

/-- Phase-1 reply collection of `ABDClientImpl::Read`
(abd_client_impl.cpp:146): walk the replica replies in order, keep the
successful ones, and break once `read_quorum` replies are collected.
Replies of replicas past the break are never examined by the client. -/
def collectReads (R : Nat) : List (Option (String × Int)) → Nat →
    List (String × Int)
  | [], _ => []
  | none :: rest, cnt => collectReads R rest cnt
  | some rsp :: rest, cnt =>
      rsp :: (if cnt + 1 ≥ R then [] else collectReads R rest (cnt + 1))

/-- Embedding of `std::max_element` over collected replies with comparator
`a.timestamp < b.timestamp` (abd_client_impl.cpp:170): the first reply
with the maximal timestamp.  The source never applies it to an empty
list; `("", 0)` is a junk value for that case. -/
def maxByTs : List (String × Int) → String × Int
  | [] => ("", 0)
  | r :: rest => rest.foldl (fun best x => if best.2 < x.2 then x else best) r

/-- Phase-2 write-back loop of `ABDClientImpl::Read`
(abd_client_impl.cpp:191): serial `WriteToServer` calls that stop once
`written ≥ write_quorum`.  Each successful call runs
`UpdateTimestamp(reply.timestamp)`.  Returns (final clock, write count,
acknowledged timestamps in order). -/
def writeBackLoop (W : Nat) : List (Option Int) → Nat → Int →
    Int × Nat × List Int
  | [], written, clock => (clock, written, [])
  | a :: rest, written, clock =>
      if written ≥ W then (clock, written, [])
      else
        match a with
        | some r =>
            let out := writeBackLoop W rest (written + 1) (updateTimestamp clock r)
            (out.1, out.2.1, r :: out.2.2)
        | none => writeBackLoop W rest written clock

/-- Outcome of one ABD client operation: success flag, value read (for
reads), final clock, the timestamps issued during the operation, the
timestamps fed to `UpdateTimestamp` from server acknowledgments, and the
timestamps observed in phase-1 read replies (which are never fed to
`UpdateTimestamp`). -/
structure OpOutcome where
  ok : Bool
  value : String
  clock : Int
  issued : List Int
  acked : List Int
  seen : List Int
  deriving DecidableEq, Repr

/-- Embedding of `ABDClientImpl::Write` (abd_client_impl.cpp:211) for a client whose
clock is `clock`, against `n` replicas answering `acks` (`some r` = reply
`success=true` carrying timestamp `r`).  The quorum-counting loop breaks
at `W`, but every launched `WriteToServer` task still completes and runs
its `UpdateTimestamp` before the operation returns (the futures are
joined on scope exit), so all acknowledged timestamps raise the clock. -/
def ABDClientWrite (clock : Int) (W n : Nat) (acks : List (Option Int)) :
    OpOutcome :=
  if W > n then ⟨false, "", clock, [], [], []⟩
  else
    let t := clock + 1
    let c1 := updateTimestamp clock t
    let rs := acks.filterMap id
    ⟨decide (rs.length ≥ W), "", raiseAll c1 rs, [t], rs, []⟩

/-- Embedding of `ABDClientImpl::Read` (abd_client_impl.cpp:114) for a client whose
clock is `clock`: phase-1 collection with break at `R`, quorum check,
max-timestamp selection, write-back issuance
`max(t_max, clock) + 1`, and the serial phase-2 loop. -/
def ABDClientRead (clock : Int) (R W n : Nat)
    (replies : List (Option (String × Int))) (acks : List (Option Int)) :
    OpOutcome :=
  if R > n then ⟨false, "", clock, [], [], []⟩
  else
    let collected := collectReads R replies 0
    if collected.length < R then
      ⟨false, "", clock, [], [], collected.map (·.2)⟩
    else
      let m := maxByTs collected
      let wb := max m.2 clock + 1
      let c1 := updateTimestamp clock wb
      let out := writeBackLoop W acks 0 c1
      ⟨decide (out.2.1 ≥ W), m.1, out.1, [wb], out.2.2, collected.map (·.2)⟩

/-- One ABD client operation together with its environment inputs. -/
inductive COp where
  | writeOp (W n : Nat) (acks : List (Option Int))
  | readOp (R W n : Nat) (replies : List (Option (String × Int)))
      (acks : List (Option Int))
  deriving DecidableEq, Repr

/-- Outcome of a client operation run from clock value `clock`. -/
def COp.run (clock : Int) : COp → OpOutcome
  | .writeOp W n acks => ABDClientWrite clock W n acks
  | .readOp R W n replies acks => ABDClientRead clock R W n replies acks

/-- Final clock after a sequence of client operations. -/
def runOps (clock : Int) : List COp → Int
  | [] => clock
  | op :: rest => runOps (op.run clock).clock rest

/-- All timestamps issued across a sequence of client operations. -/
def issuedDuring (clock : Int) : List COp → List Int
  | [] => []
  | op :: rest => (op.run clock).issued ++ issuedDuring (op.run clock).clock rest

/-- All timestamps fed to `UpdateTimestamp` from acknowledgments across a
sequence of client operations. -/
def ackedDuring (clock : Int) : List COp → List Int
  | [] => []
  | op :: rest => (op.run clock).acked ++ ackedDuring (op.run clock).clock rest

/-- All timestamps observed in phase-1 read replies across a sequence of
client operations. -/
def seenDuring (clock : Int) : List COp → List Int
  | [] => []
  | op :: rest => (op.run clock).seen ++ seenDuring (op.run clock).clock rest

/-! The blocking client engine (`blocking_client_impl.cpp`). -/

/-- Lock-grant collection of `BlockingClientImpl::Write`
(blocking_client_impl.cpp:266): walk the per-replica grant results in
replica order, record the index of each granting replica, and break once
`write_quorum` grants are collected.  Grants from replicas past the break
are never recorded. -/
def collectGrants (W : Nat) : List Bool → Nat → Nat → List Nat
  | [], _, _ => []
  | g :: rest, i, cnt =>
      if g then
        i :: (if cnt + 1 ≥ W then [] else collectGrants W rest (i + 1) (cnt + 1))
      else collectGrants W rest (i + 1) cnt

/-- Outcome of one blocking client `Write`: the replica indices whose
grants were collected, the indices sent a `ReleaseLock`, and the overall
result. -/
structure BWOutcome where
  locked : List Nat
  released : List Nat
  ok : Bool
  deriving DecidableEq, Repr

/-- Embedding of `BlockingClientImpl::Write` (blocking_client_impl.cpp:235), control
flow over environment inputs: `grants` is each replica's `AcquireLock`
answer, `writeOk i` whether the per-replica `Write` RPC to replica `i`
succeeds.  On a failed lock quorum the collected grants are released and
the operation fails; otherwise the writes run and phase 3 releases the
collected grants regardless of write outcome. -/
def BlockingClientWrite (grants : List Bool) (writeOk : Nat → Bool)
    (W n : Nat) : BWOutcome :=
  if W > n then ⟨[], [], false⟩
  else
    let locked := collectGrants W grants 0 0
    if locked.length < W then ⟨locked, locked, false⟩
    else
      let written := (locked.filter writeOk).length
      ⟨locked, locked, decide (written ≥ W)⟩

/-! Server operation sequences -/

/-- One `ABDProtocol::Write` call with its environment input. -/
structure AWOp where
  key : String
  value : String
  client_ts : Int
  current : Int
  deriving DecidableEq, Repr

/-- State after a sequence of ABD server writes. -/
def runAWrites (s : ABDProtocol) : List AWOp → ABDProtocol
  | [] => s
  | o :: rest =>
      runAWrites (ABDProtocol.Write s o.key o.value o.client_ts o.current).2 rest

/-- One blocking server operation with its environment inputs. -/
inductive BOp where
  | acquire (key : String) (cid now wall : Int)
  | release (key : String) (cid : Int)
  | write (key value : String) (cts cid cur : Int)
  deriving DecidableEq, Repr

/-- The state transition of one blocking server operation. -/
def BOp.apply (s : BlockingProtocol) : BOp → BlockingProtocol
  | .acquire k cid now wall => (s.AcquireLock k cid now wall).2
  | .release k cid => (s.ReleaseLock k cid).2
  | .write k v cts cid cur => (s.Write k v cts cid cur).2

/-- State after a sequence of blocking server operations. -/
def runBOps (s : BlockingProtocol) : List BOp → BlockingProtocol
  | [] => s
  | o :: rest => runBOps (o.apply s) rest

/-- Server-state invariant for the ABD replica: the generator state is
non-negative and bounds every stored timestamp. -/
def ABDInv (s : ABDProtocol) : Prop :=
  0 ≤ s.last_timestamp ∧ ∀ key, s.GetTimestamp key ≤ s.last_timestamp

/-- Well-clockedness of one blocking server operation: a `Write` must not
carry a client timestamp ahead of its wall-clock reading; lock
operations are unconstrained. -/
def BOp.wellClocked : BOp → Prop
  | .write _ _ cts _ cur => cts ≤ cur
  | _ => True

/-- Blocking-server-state invariant, mirroring `ABDInv`. -/
def BInv (s : BlockingProtocol) : Prop :=
  0 ≤ s.last_timestamp ∧ ∀ key, s.GetTimestamp key ≤ s.last_timestamp

/-! Theorems.  First the association-list lemmas shared by the claims. -/

/-- Looking up the just-inserted key returns the inserted value. -/
theorem mapFind_mapInsert_self {α : Type} (m : List (String × α)) (k : String) (v : α) :
    mapFind (mapInsert m k v) k = some v := by
  induction m with
  | nil => simp [mapFind, mapInsert]
  | cons hd tl ih =>
      obtain ⟨k', v'⟩ := hd
      by_cases h : k' = k
      · simp [mapFind, mapInsert, h]
      · simp [mapFind, mapInsert, h, ih]

/-- Insertion does not disturb lookups of other keys. -/
theorem mapFind_mapInsert_other {α : Type} (m : List (String × α)) (k k' : String)
    (v : α) (h : k ≠ k') : mapFind (mapInsert m k v) k' = mapFind m k' := by
  induction m with
  | nil => simp [mapFind, mapInsert, h]
  | cons hd tl ih =>
      obtain ⟨k0, v0⟩ := hd
      by_cases h0 : k0 = k
      · subst h0
        simp [mapFind, mapInsert, h]
      · by_cases h1 : k0 = k'
        · subst h1
          simp [mapFind, mapInsert, h0]
        · simp [mapFind, mapInsert, h0, h1, ih]

/-! Claim C3: ABD server write characterization -/

/-- C3: for every ABD server `Write(key, value, client_ts)`, regardless of
the prior store contents, the write is accepted (`success = true`), the
store entry for `key` becomes `(value, final_ts)` with
`final_ts = max(client_ts, s)` where `s` is the freshly generated server
timestamp, and the returned timestamp equals exactly that `final_ts`. -/
theorem c3_abd_write_unconditional (s : ABDProtocol) (key value : String)
    (client_ts current : Int) :
    (s.Write key value client_ts current).1.success = true ∧
    mapFind (s.Write key value client_ts current).2.store key =
      some ⟨value, max client_ts (s.GenerateTimestamp current).1⟩ ∧
    (s.Write key value client_ts current).1.timestamp =
      max client_ts (s.GenerateTimestamp current).1 := by
  by_cases h : current > s.last_timestamp <;>
    simp [ABDProtocol.Write, ABDProtocol.GenerateTimestamp, h,
      mapFind_mapInsert_self]

/-! Claim C8: ABD server read characterization -/

/-- C8: `ABDProtocol::Read(key, client_ts)` returns the stored
`(value, timestamp)` pair when `key` is present and `("", 0)` when it is
absent, with `success = true` in both cases, and the result does not
depend on the `client_ts` argument. -/
theorem c8_abd_read_total (s : ABDProtocol) (key : String)
    (cts cts' : Int) :
    s.Read key cts = s.Read key cts' ∧
    (s.Read key cts).success = true ∧
    (∀ e, mapFind s.store key = some e →
      s.Read key cts = ⟨e.value, e.timestamp, true⟩) ∧
    (mapFind s.store key = none → s.Read key cts = ⟨"", 0, true⟩) := by
  refine ⟨rfl, ?_, ?_, ?_⟩
  · cases h : mapFind s.store key <;> simp [ABDProtocol.Read, h]
  · intro e he
    simp [ABDProtocol.Read, he]
  · intro he
    simp [ABDProtocol.Read, he]

/-- Witness for C8 at concrete inputs: a present key returns its stored
pair, an absent key returns `("", 0, true)`. -/
theorem c8_witness :
    ABDProtocol.Read ⟨[("k", ⟨"v", 7⟩)], 0⟩ "k" 3 = ⟨"v", 7, true⟩ ∧
    ABDProtocol.Read ⟨[], 0⟩ "k" 3 = ⟨"", 0, true⟩ :=
  ⟨(c8_abd_read_total ⟨[("k", ⟨"v", 7⟩)], 0⟩ "k" 3 5).2.2.1 ⟨"v", 7⟩ (by decide),
   (c8_abd_read_total ⟨[], 0⟩ "k" 3 5).2.2.2 (by decide)⟩

/-! Claim C4: blocking-server lock acquisition cases -/

/-- C4: `AcquireLock(key, client_id)` grants and records the lock when no
entry exists; evicts and re-grants when the existing entry's age exceeds
30 seconds; re-grants when the (non-timed-out) entry's owner is the
requester; and denies in every other case. -/
theorem c4_acquire_lock_cases (s : BlockingProtocol) (key : String)
    (cid now wall : Int) :
    (mapFind s.locks key = none →
      (s.AcquireLock key cid now wall).1.granted = true ∧
      mapFind (s.AcquireLock key cid now wall).2.locks key = some ⟨cid, now⟩) ∧
    (∀ e, mapFind s.locks key = some e →
      now - e.acquired_at > LOCK_TIMEOUT_SECONDS →
      (s.AcquireLock key cid now wall).1.granted = true ∧
      mapFind (s.AcquireLock key cid now wall).2.locks key = some ⟨cid, now⟩) ∧
    (∀ e, mapFind s.locks key = some e →
      ¬now - e.acquired_at > LOCK_TIMEOUT_SECONDS → e.owner_id = cid →
      (s.AcquireLock key cid now wall).1.granted = true) ∧
    (∀ e, mapFind s.locks key = some e →
      ¬now - e.acquired_at > LOCK_TIMEOUT_SECONDS → e.owner_id ≠ cid →
      (s.AcquireLock key cid now wall).1.granted = false) := by
  refine ⟨?_, ?_, ?_, ?_⟩
  · intro hnone
    simp [BlockingProtocol.AcquireLock, hnone, mapFind_mapInsert_self]
  · intro e he ht
    simp [BlockingProtocol.AcquireLock, he, ht, mapFind_mapInsert_self]
  · intro e he ht hown
    simp [BlockingProtocol.AcquireLock, he, ht, hown]
  · intro e he ht hown
    simp [BlockingProtocol.AcquireLock, he, ht, hown]

/-- Witness for C4: all four branches at concrete states (fresh key;
timed-out foreign lock at age 40 s; re-entrant grant; denial). -/
theorem c4_witness :
    ((BlockingProtocol.init.AcquireLock "k" 1 5 9).1.granted = true ∧
      mapFind (BlockingProtocol.init.AcquireLock "k" 1 5 9).2.locks "k" =
        some ⟨1, 5⟩) ∧
    ((BlockingProtocol.AcquireLock ⟨[], [("k", ⟨2, 0⟩)], 0⟩ "k" 1 40 9).1.granted = true ∧
      mapFind (BlockingProtocol.AcquireLock ⟨[], [("k", ⟨2, 0⟩)], 0⟩ "k" 1 40 9).2.locks "k" =
        some ⟨1, 40⟩) ∧
    (BlockingProtocol.AcquireLock ⟨[], [("k", ⟨2, 0⟩)], 0⟩ "k" 2 10 9).1.granted = true ∧
    (BlockingProtocol.AcquireLock ⟨[], [("k", ⟨2, 0⟩)], 0⟩ "k" 3 10 9).1.granted = false :=
  ⟨(c4_acquire_lock_cases BlockingProtocol.init "k" 1 5 9).1 (by decide),
   (c4_acquire_lock_cases ⟨[], [("k", ⟨2, 0⟩)], 0⟩ "k" 1 40 9).2.1 ⟨2, 0⟩
     (by decide) (by decide),
   (c4_acquire_lock_cases ⟨[], [("k", ⟨2, 0⟩)], 0⟩ "k" 2 10 9).2.2.1 ⟨2, 0⟩
     (by decide) (by decide) (by decide),
   (c4_acquire_lock_cases ⟨[], [("k", ⟨2, 0⟩)], 0⟩ "k" 3 10 9).2.2.2 ⟨2, 0⟩
     (by decide) (by decide) (by decide)⟩

/-! Claim C5: blocking-server reads and writes are lock-gated -/

/-- C5: a blocking-server `Read`/`Write` succeeds iff the caller owns the
key's lock; a successful `Read` returns the stored entry (or `("", 0)`
when absent), a successful `Write` stores
`(value, max(client_ts, fresh server ts))` and returns that timestamp;
a caller without the lock gets `success = false` and the server state
(in particular the store) is unchanged. -/
theorem c5_blocking_lock_gating (s : BlockingProtocol) (key value : String)
    (cid cts cur : Int) :
    (s.Read key cid).success = s.ownsLock key cid ∧
    (s.ownsLock key cid = true →
      (∀ e, mapFind s.store key = some e →
        s.Read key cid = ⟨e.value, e.timestamp, true⟩) ∧
      (mapFind s.store key = none → s.Read key cid = ⟨"", 0, true⟩)) ∧
    (s.Write key value cts cid cur).1.success = s.ownsLock key cid ∧
    (s.ownsLock key cid = true →
      mapFind (s.Write key value cts cid cur).2.store key =
        some ⟨value, max cts (s.GenerateTimestamp cur).1⟩ ∧
      (s.Write key value cts cid cur).1.timestamp =
        max cts (s.GenerateTimestamp cur).1) ∧
    (s.ownsLock key cid = false → (s.Write key value cts cid cur).2 = s) := by
  refine ⟨?_, ?_, ?_, ?_, ?_⟩
  · by_cases h : s.ownsLock key cid
    · cases hf : mapFind s.store key <;> simp [BlockingProtocol.Read, h, hf]
    · simp [BlockingProtocol.Read, h]
  · intro h
    refine ⟨fun e he => ?_, fun he => ?_⟩ <;> simp [BlockingProtocol.Read, h, he]
  · by_cases h : s.ownsLock key cid <;>
      by_cases hc : cur > s.last_timestamp <;>
      simp [BlockingProtocol.Write, BlockingProtocol.GenerateTimestamp, h, hc]
  · intro h
    by_cases hc : cur > s.last_timestamp <;>
      simp [BlockingProtocol.Write, BlockingProtocol.GenerateTimestamp, h, hc,
        mapFind_mapInsert_self]
  · intro h
    simp [BlockingProtocol.Write, h]

/-- Witness for C5: a lock-owning caller reads and writes successfully; a
caller without the lock is rejected and the state is unchanged. -/
theorem c5_witness :
    BlockingProtocol.Read ⟨[("k", ⟨"v", 7⟩)], [("k", ⟨2, 0⟩)], 0⟩ "k" 2 =
      ⟨"v", 7, true⟩ ∧
    mapFind (BlockingProtocol.Write ⟨[("k", ⟨"v", 7⟩)], [("k", ⟨2, 0⟩)], 0⟩
        "k" "w" 5 2 3).2.store "k" = some ⟨"w", 5⟩ ∧
    (BlockingProtocol.Write ⟨[("k", ⟨"v", 7⟩)], [("k", ⟨2, 0⟩)], 0⟩
        "k" "w" 5 3 3).1.success = false ∧
    (BlockingProtocol.Write ⟨[("k", ⟨"v", 7⟩)], [("k", ⟨2, 0⟩)], 0⟩
        "k" "w" 5 3 3).2 = ⟨[("k", ⟨"v", 7⟩)], [("k", ⟨2, 0⟩)], 0⟩ := by
  refine ⟨(c5_blocking_lock_gating ⟨[("k", ⟨"v", 7⟩)], [("k", ⟨2, 0⟩)], 0⟩
      "k" "w" 2 5 3).2.1 (by decide) |>.1 ⟨"v", 7⟩ (by decide), ?_, ?_, ?_⟩
  · have h := (c5_blocking_lock_gating ⟨[("k", ⟨"v", 7⟩)], [("k", ⟨2, 0⟩)], 0⟩
      "k" "w" 2 5 3).2.2.2.1 (by decide)
    have : max (5 : Int)
        ((BlockingProtocol.GenerateTimestamp ⟨[("k", ⟨"v", 7⟩)], [("k", ⟨2, 0⟩)], 0⟩ 3).1) = 5 := by
      decide
    simpa [this] using h.1
  · have h := (c5_blocking_lock_gating ⟨[("k", ⟨"v", 7⟩)], [("k", ⟨2, 0⟩)], 0⟩
      "k" "w" 3 5 3).2.2.1
    simpa using h
  · exact (c5_blocking_lock_gating ⟨[("k", ⟨"v", 7⟩)], [("k", ⟨2, 0⟩)], 0⟩
      "k" "w" 3 5 3).2.2.2.2 (by decide)

/-! Claim C10: re-entrant re-grant keeps the original acquisition time -/

/-- C10: when `AcquireLock` re-grants a not-yet-timed-out lock to its
current owner, the server state — in particular the entry's
`acquired_at` instant — is unchanged, so the 30-second timeout keeps
running from the original acquisition and a later caller past the
timeout still evicts. -/
theorem c10_reentrant_frame (s : BlockingProtocol) (key : String)
    (cid now wall : Int) (e : LockEntry)
    (hfind : mapFind s.locks key = some e)
    (hlive : ¬now - e.acquired_at > LOCK_TIMEOUT_SECONDS)
    (hown : e.owner_id = cid) :
    (s.AcquireLock key cid now wall).2 = s ∧
    mapFind (s.AcquireLock key cid now wall).2.locks key = some e ∧
    (∀ cid' now' wall', now' - e.acquired_at > LOCK_TIMEOUT_SECONDS →
      ((s.AcquireLock key cid now wall).2.AcquireLock key cid' now' wall').1.granted =
        true) := by
  have hstate : (s.AcquireLock key cid now wall).2 = s := by
    simp [BlockingProtocol.AcquireLock, hfind, hlive, hown]
  refine ⟨hstate, ?_, ?_⟩
  · rw [hstate]
    exact hfind
  · intro cid' now' wall' ht
    rw [hstate]
    simp [BlockingProtocol.AcquireLock, hfind, ht]

/-- Witness for C10: client 2 re-acquires its lock at 10 s without
refreshing `acquired_at`; client 3 evicts at 40 s. -/
theorem c10_witness :
    (BlockingProtocol.AcquireLock ⟨[], [("k", ⟨2, 0⟩)], 0⟩ "k" 2 10 9).2 =
      ⟨[], [("k", ⟨2, 0⟩)], 0⟩ ∧
    ((BlockingProtocol.AcquireLock ⟨[], [("k", ⟨2, 0⟩)], 0⟩ "k" 2 10 9).2.AcquireLock
        "k" 3 40 11).1.granted = true := by
  have h := c10_reentrant_frame ⟨[], [("k", ⟨2, 0⟩)], 0⟩ "k" 2 10 9 ⟨2, 0⟩
    (by decide) (by decide) (by decide)
  exact ⟨h.1, h.2.2 3 40 11 (by decide)⟩

/-! Claim C7: clock raising upon observation -/

/-- C7 counterexample: after the ABD server processes
`Write("k", "v", client_ts = 100)` with wall clock at 1, its
`last_timestamp_` generator state is 1, not at least `client_ts`: the
server never folds the client timestamp into its generator state. -/
theorem c7_counterexample :
    (ABDProtocol.Write ABDProtocol.init "k" "v" 100 1).2.last_timestamp = 1 ∧
    ¬(100 ≤ (ABDProtocol.Write ABDProtocol.init "k" "v" 100 1).2.last_timestamp) := by
  decide

/-- C7 amended: the ABD client's `UpdateTimestamp(t)` always leaves the
clock strictly above both `t` and the clock's prior value; the ABD
server's `Write` returns (and stores) a final timestamp that is at least
`client_ts`, but its `last_timestamp_` generator state after the write is
exactly the state left by `GenerateTimestamp` — `client_ts` is never
folded into it. -/
theorem c7_clock_raising (clock t : Int) (s : ABDProtocol)
    (key value : String) (cts cur : Int) :
    t < updateTimestamp clock t ∧
    clock < updateTimestamp clock t ∧
    cts ≤ (s.Write key value cts cur).1.timestamp ∧
    (s.Write key value cts cur).2.last_timestamp =
      (s.GenerateTimestamp cur).2.last_timestamp := by
  refine ⟨?_, ?_, ?_, ?_⟩
  · unfold updateTimestamp
    by_cases h : t > clock <;> simp [h] <;> omega
  · unfold updateTimestamp
    by_cases h : t > clock <;> simp [h] <;> omega
  · by_cases h : cur > s.last_timestamp <;>
      simp [ABDProtocol.Write, ABDProtocol.GenerateTimestamp, h, le_max_left]
  · by_cases h : cur > s.last_timestamp <;>
      simp [ABDProtocol.Write, ABDProtocol.GenerateTimestamp, h]

/-! Claim C9: configuration validation -/

/-- C9 counterexample: a configuration with one server and
`read_quorum = 5` passes `Config::Validate` even though the quorum
exceeds the server count — validation does not reject it. -/
theorem c9_counterexample :
    Config.Validate ⟨[⟨0, "localhost", 5001⟩], 5, 1, 1⟩ = true ∧
    ((([⟨0, "localhost", 5001⟩] : List ServerInfo).length : Int) <
      (Config.mk [⟨0, "localhost", 5001⟩] 5 1 1).read_quorum) := by
  decide

/-- C9 amended: `Config::Validate` fails exactly on an empty server list
or a non-positive quorum; a quorum exceeding the server count passes
validation and is instead rejected per-operation by the client engines'
pre-flight check (here: the ABD client write refuses to run when
`write_quorum > n`). -/
theorem c9_validate_amended (c : Config) (clock : Int) (W n : Nat)
    (acks : List (Option Int)) :
    (c.Validate = true ↔
      c.servers ≠ [] ∧ 0 < c.read_quorum ∧ 0 < c.write_quorum) ∧
    (n < W → ABDClientWrite clock W n acks = ⟨false, "", clock, [], [], []⟩) := by
  constructor
  · unfold Config.Validate
    rcases hs : c.servers with _ | ⟨a, l⟩ <;>
      by_cases h1 : c.read_quorum ≤ 0 <;> by_cases h2 : c.write_quorum ≤ 0 <;>
        simp [h1, h2] <;> omega
  · intro h
    simp [ABDClientWrite, h]

/-- Witness for C9: the counterexample configuration is accepted by
`Validate` via the amended characterization, and the pre-flight check
fails a write with `W = 2` against `n = 1` replicas. -/
theorem c9_witness :
    Config.Validate ⟨[⟨0, "localhost", 5001⟩], 5, 1, 1⟩ = true ∧
    ABDClientWrite 0 2 1 [] = ⟨false, "", 0, [], [], []⟩ :=
  ⟨(c9_validate_amended ⟨[⟨0, "localhost", 5001⟩], 5, 1, 1⟩ 0 2 1 []).1.mpr
     (by decide),
   (c9_validate_amended ⟨[⟨0, "localhost", 5001⟩], 5, 1, 1⟩ 0 2 1 []).2
     (by decide)⟩

/-! Claim C6: blocking client releases the collected grants only -/

/-- Every replica index collected by the grant loop did grant its lock. -/
theorem collectGrants_mem {W : Nat} :
    ∀ (gs : List Bool) (i cnt j : Nat), j ∈ collectGrants W gs i cnt →
      i ≤ j ∧ gs.getD (j - i) false = true := by
  intro gs
  induction gs with
  | nil => intro i cnt j h; simp [collectGrants] at h
  | cons g rest ih =>
      intro i cnt j h
      unfold collectGrants at h
      by_cases hg : g
      · rw [if_pos hg] at h
        rcases List.mem_cons.mp h with h0 | h1
        · subst h0
          simp [hg]
        · by_cases hw : cnt + 1 ≥ W
          · rw [if_pos hw] at h1
            simp at h1
          · rw [if_neg hw] at h1
            obtain ⟨hle, hgd⟩ := ih (i + 1) (cnt + 1) j h1
            refine ⟨by omega, ?_⟩
            have hji : j - i = (j - (i + 1)) + 1 := by omega
            rw [hji, List.getD_cons_succ]
            exact hgd
      · rw [if_neg hg] at h
        obtain ⟨hle, hgd⟩ := ih (i + 1) cnt j h
        refine ⟨by omega, ?_⟩
        have hji : j - i = (j - (i + 1)) + 1 := by omega
        rw [hji, List.getD_cons_succ]
        exact hgd

/-- C6 counterexample: with three replicas all granting and `W = 2`, the
grant-collection loop of the blocking client `Write` breaks at the
quorum, so replica 2's grant is never collected and no `ReleaseLock` is
issued to it — contradicting "a ReleaseLock request is issued to every
replica that granted the lock, including grants that arrive after W is
reached". -/
theorem c6_counterexample :
    [true, true, true].getD 2 false = true ∧
    (BlockingClientWrite [true, true, true] (fun _ => true) 2 3).released =
      [0, 1] ∧
    2 ∉ (BlockingClientWrite [true, true, true] (fun _ => true) 2 3).released := by
  decide

/-- C6 amended: the blocking client `Write` issues `ReleaseLock` exactly
to the replicas whose grants were collected before the quorum decision
(the first grants in replica order, stopping once `W` are collected),
regardless of whether the per-replica writes succeed or fail; every
collected index did grant, but grants arriving after the quorum is
reached are never collected nor released. -/
theorem c6_release_collected (grants : List Bool) (wOk wOk' : Nat → Bool)
    (W n : Nat) :
    (BlockingClientWrite grants wOk W n).released =
      (BlockingClientWrite grants wOk W n).locked ∧
    (BlockingClientWrite grants wOk W n).released =
      (BlockingClientWrite grants wOk' W n).released ∧
    (¬W > n →
      (BlockingClientWrite grants wOk W n).released = collectGrants W grants 0 0) ∧
    (∀ j ∈ collectGrants W grants 0 0, grants.getD j false = true) := by
  refine ⟨?_, ?_, ?_, ?_⟩
  · by_cases hn : W > n
    · simp [BlockingClientWrite, hn]
    · by_cases hq : (collectGrants W grants 0 0).length < W <;>
        simp [BlockingClientWrite, hn, hq]
  · by_cases hn : W > n
    · simp [BlockingClientWrite, hn]
    · by_cases hq : (collectGrants W grants 0 0).length < W <;>
        simp [BlockingClientWrite, hn, hq]
  · intro hn
    by_cases hq : (collectGrants W grants 0 0).length < W <;>
      simp [BlockingClientWrite, hn, hq]
  · intro j hj
    simpa using (collectGrants_mem grants 0 0 j hj).2

/-- Witness for C6: grants `[true, false, true]` with `W = 2`, `n = 3`
collect replicas 0 and 2, and exactly those are released. -/
theorem c6_witness :
    (BlockingClientWrite [true, false, true] (fun _ => false) 2 3).released =
      collectGrants 2 [true, false, true] 0 0 ∧
    (BlockingClientWrite [true, false, true] (fun _ => false) 2 3).released =
      (BlockingClientWrite [true, false, true] (fun _ => true) 2 3).released :=
  ⟨(c6_release_collected [true, false, true] (fun _ => false) (fun _ => true)
      2 3).2.2.1 (by decide),
   (c6_release_collected [true, false, true] (fun _ => false) (fun _ => true)
      2 3).2.1⟩

/-! Claim C1: stored timestamps across server writes -/

/-- C1 counterexample: the ABD server accepts every write, so a write
carrying a far-ahead client timestamp (100, with wall clock at 1)
followed by a write with client timestamp 0 (wall clock at 2) replaces
the stored entry's timestamp 100 by 2 — the stored timestamp strictly
decreases. -/
theorem c1_counterexample :
    (runAWrites ABDProtocol.init [⟨"k", "a", 100, 1⟩]).GetTimestamp "k" = 100 ∧
    (runAWrites ABDProtocol.init
        [⟨"k", "a", 100, 1⟩, ⟨"k", "b", 0, 2⟩]).GetTimestamp "k" = 2 ∧
    (2 : Int) < 100 := by
  decide

/-- Characterization of `GenerateTimestamp`: the returned timestamp is
the new generator state, strictly above the old state and at least the
wall-clock reading; the store is untouched. -/
theorem generateTimestamp_spec (s : ABDProtocol) (cur : Int) :
    (s.GenerateTimestamp cur).2.last_timestamp = (s.GenerateTimestamp cur).1 ∧
    s.last_timestamp < (s.GenerateTimestamp cur).1 ∧
    cur ≤ (s.GenerateTimestamp cur).1 ∧
    (s.GenerateTimestamp cur).2.store = s.store := by
  by_cases h : cur > s.last_timestamp <;>
    simp [ABDProtocol.GenerateTimestamp, h] <;> omega

/-- The state after `ABDProtocol::Write`, in terms of `GenerateTimestamp`. -/
theorem abd_write_state_eq (s : ABDProtocol) (key value : String)
    (cts cur : Int) :
    (s.Write key value cts cur).2 =
      ⟨mapInsert s.store key ⟨value, max cts (s.GenerateTimestamp cur).1⟩,
       (s.GenerateTimestamp cur).2.last_timestamp⟩ := by
  by_cases h : cur > s.last_timestamp <;>
    simp [ABDProtocol.Write, ABDProtocol.GenerateTimestamp, h]

/-- One ABD write whose client timestamp does not run ahead of the wall
clock preserves the invariant and never lowers any stored timestamp. -/
theorem abd_write_step (s : ABDProtocol) (o : AWOp) (hinv : ABDInv s)
    (hcts : o.client_ts ≤ o.current) :
    ABDInv (s.Write o.key o.value o.client_ts o.current).2 ∧
    ∀ key, s.GetTimestamp key ≤
      (s.Write o.key o.value o.client_ts o.current).2.GetTimestamp key := by
  obtain ⟨hlast, hts, hcur, _⟩ := generateTimestamp_spec s o.current
  obtain ⟨h0, hbound⟩ := hinv
  have hmax : max o.client_ts (s.GenerateTimestamp o.current).1 =
      (s.GenerateTimestamp o.current).1 :=
    max_eq_right (le_trans hcts hcur)
  rw [abd_write_state_eq]
  have hget : ∀ key,
      (ABDProtocol.mk
          (mapInsert s.store o.key
            ⟨o.value, max o.client_ts (s.GenerateTimestamp o.current).1⟩)
          (s.GenerateTimestamp o.current).2.last_timestamp).GetTimestamp key =
        if o.key = key then max o.client_ts (s.GenerateTimestamp o.current).1
        else s.GetTimestamp key := by
    intro key
    by_cases hk : o.key = key
    · subst hk
      simp [ABDProtocol.GetTimestamp, mapFind_mapInsert_self]
    · simp [ABDProtocol.GetTimestamp, mapFind_mapInsert_other _ _ _ _ hk, hk]
  refine ⟨⟨?_, ?_⟩, ?_⟩
  · show (0 : Int) ≤ (s.GenerateTimestamp o.current).2.last_timestamp
    omega
  · intro key
    rw [hget key]
    show _ ≤ (s.GenerateTimestamp o.current).2.last_timestamp
    by_cases hk : o.key = key
    · simp [hk, hmax, hlast]
    · simp only [if_neg hk, hlast]
      exact le_trans (hbound key) (le_of_lt hts)
  · intro key
    show s.GetTimestamp key ≤ _
    rw [hget key]
    by_cases hk : o.key = key
    · rw [if_pos hk, hmax]
      exact le_trans (hbound key) (le_of_lt hts)
    · rw [if_neg hk]

/-- The run `runAWrites` distributes over append. -/
theorem runAWrites_append (s : ABDProtocol) (xs ys : List AWOp) :
    runAWrites s (xs ++ ys) = runAWrites (runAWrites s xs) ys := by
  induction xs generalizing s with
  | nil => rfl
  | cons x xs ih => simp [runAWrites, ih]

/-- The invariant propagates along any run of well-clocked writes. -/
theorem runAWrites_inv (s : ABDProtocol) (ops : List AWOp) (hinv : ABDInv s)
    (h : ∀ o ∈ ops, o.client_ts ≤ o.current) : ABDInv (runAWrites s ops) := by
  induction ops generalizing s with
  | nil => exact hinv
  | cons o rest ih =>
      exact ih _ (abd_write_step s o hinv (h o (List.mem_cons_self o rest))).1
        fun o' ho' => h o' (List.mem_cons_of_mem o ho')

/-- The initial server state satisfies the invariant. -/
theorem abdInv_init : ABDInv ABDProtocol.init :=
  ⟨le_refl 0, fun _ => le_refl 0⟩

/-- Characterization of the blocking `GenerateTimestamp`. -/
theorem bGenerateTimestamp_spec (s : BlockingProtocol) (cur : Int) :
    (s.GenerateTimestamp cur).2.last_timestamp = (s.GenerateTimestamp cur).1 ∧
    s.last_timestamp < (s.GenerateTimestamp cur).1 ∧
    cur ≤ (s.GenerateTimestamp cur).1 ∧
    (s.GenerateTimestamp cur).2.store = s.store := by
  by_cases h : cur > s.last_timestamp <;>
    simp [BlockingProtocol.GenerateTimestamp, h] <;> omega

/-- The resulting state of `AcquireLock` is either the old state or the
old state with a fresh lock entry installed. -/
theorem acquireLock_state (s : BlockingProtocol) (key : String)
    (cid now wall : Int) :
    (s.AcquireLock key cid now wall).2 = s ∨
    (s.AcquireLock key cid now wall).2 =
      { s with locks := mapInsert s.locks key ⟨cid, now⟩ } := by
  rcases hf : mapFind s.locks key with _ | e
  · right
    simp [BlockingProtocol.AcquireLock, hf]
  · by_cases ht : now - e.acquired_at > LOCK_TIMEOUT_SECONDS
    · right
      simp [BlockingProtocol.AcquireLock, hf, ht]
    · by_cases ho : e.owner_id = cid
      · left
        simp [BlockingProtocol.AcquireLock, hf, ht, ho]
      · left
        simp [BlockingProtocol.AcquireLock, hf, ht, ho]

/-- The resulting state of `ReleaseLock` is either the old state or the
old state with the key's lock entry erased. -/
theorem releaseLock_state (s : BlockingProtocol) (key : String) (cid : Int) :
    (s.ReleaseLock key cid).2 = s ∨
    (s.ReleaseLock key cid).2 = { s with locks := mapErase s.locks key } := by
  rcases hf : mapFind s.locks key with _ | e
  · left
    simp [BlockingProtocol.ReleaseLock, hf]
  · by_cases ho : e.owner_id = cid
    · right
      simp [BlockingProtocol.ReleaseLock, hf, ho]
    · left
      simp [BlockingProtocol.ReleaseLock, hf, ho]

/-- Lock operations leave the store and the generator state unchanged. -/
theorem bLockOps_frame (s : BlockingProtocol) (key : String)
    (cid now wall : Int) :
    (s.AcquireLock key cid now wall).2.store = s.store ∧
    (s.AcquireLock key cid now wall).2.last_timestamp = s.last_timestamp ∧
    (s.ReleaseLock key cid).2.store = s.store ∧
    (s.ReleaseLock key cid).2.last_timestamp = s.last_timestamp := by
  rcases acquireLock_state s key cid now wall with ha | ha <;>
    rcases releaseLock_state s key cid with hr | hr <;>
      rw [ha, hr] <;> exact ⟨rfl, rfl, rfl, rfl⟩

/-- One well-clocked blocking server operation preserves the invariant
and never lowers any stored timestamp. -/
theorem bOp_step (s : BlockingProtocol) (o : BOp) (hinv : BInv s)
    (hwc : o.wellClocked) :
    BInv (o.apply s) ∧ ∀ key, s.GetTimestamp key ≤ (o.apply s).GetTimestamp key := by
  obtain ⟨h0, hbound⟩ := hinv
  cases o with
  | acquire k cid now wall =>
      obtain ⟨hst, hlt, _, _⟩ := bLockOps_frame s k cid now wall
      have hget : ∀ key, ((BOp.acquire k cid now wall).apply s).GetTimestamp key =
          s.GetTimestamp key := by
        intro key
        simp [BlockingProtocol.GetTimestamp, BOp.apply, hst]
      refine ⟨⟨?_, fun key => ?_⟩, fun key => ?_⟩
      · simpa [BOp.apply, hlt] using h0
      · rw [hget key]
        simpa [BOp.apply, hlt] using hbound key
      · rw [hget key]
  | release k cid =>
      obtain ⟨_, _, hst, hlt⟩ := bLockOps_frame s k cid 0 0
      have hget : ∀ key, ((BOp.release k cid).apply s).GetTimestamp key =
          s.GetTimestamp key := by
        intro key
        simp [BlockingProtocol.GetTimestamp, BOp.apply, hst]
      refine ⟨⟨?_, fun key => ?_⟩, fun key => ?_⟩
      · simpa [BOp.apply, hlt] using h0
      · rw [hget key]
        simpa [BOp.apply, hlt] using hbound key
      · rw [hget key]
  | write k v cts cid cur =>
      by_cases hown : s.ownsLock k cid
      · obtain ⟨hlast, hts, hcur, _⟩ := bGenerateTimestamp_spec s cur
        have hmax : max cts (s.GenerateTimestamp cur).1 =
            (s.GenerateTimestamp cur).1 := max_eq_right (le_trans hwc hcur)
        have happ : (BOp.write k v cts cid cur).apply s =
            { s with
              store := mapInsert s.store k
                ⟨v, max cts (s.GenerateTimestamp cur).1⟩,
              last_timestamp := (s.GenerateTimestamp cur).2.last_timestamp } := by
          by_cases hc : cur > s.last_timestamp <;>
            simp [BOp.apply, BlockingProtocol.Write,
              BlockingProtocol.GenerateTimestamp, hown, hc]
        have hget : ∀ key, ((BOp.write k v cts cid cur).apply s).GetTimestamp key =
            if k = key then max cts (s.GenerateTimestamp cur).1
            else s.GetTimestamp key := by
          intro key
          rw [happ]
          by_cases hk : k = key
          · subst hk
            simp [BlockingProtocol.GetTimestamp, mapFind_mapInsert_self]
          · simp [BlockingProtocol.GetTimestamp,
              mapFind_mapInsert_other _ _ _ _ hk, hk]
        refine ⟨⟨?_, fun key => ?_⟩, fun key => ?_⟩
        · rw [happ]
          simp only [hlast]
          omega
        · rw [hget key, happ]
          by_cases hk : k = key
          · simp [hk, hmax, hlast]
          · simp only [if_neg hk, hlast]
            exact le_trans (hbound key) (le_of_lt hts)
        · rw [hget key]
          by_cases hk : k = key
          · rw [if_pos hk, hmax]
            exact le_trans (hbound key) (le_of_lt hts)
          · rw [if_neg hk]
      · have happ : (BOp.write k v cts cid cur).apply s = s := by
          simp [BOp.apply, BlockingProtocol.Write, hown]
        rw [happ]
        exact ⟨⟨h0, hbound⟩, fun key => le_refl _⟩

/-- The run `runBOps` distributes over append. -/
theorem runBOps_append (s : BlockingProtocol) (xs ys : List BOp) :
    runBOps s (xs ++ ys) = runBOps (runBOps s xs) ys := by
  induction xs generalizing s with
  | nil => rfl
  | cons x xs ih => simp [runBOps, ih]

/-- The invariant propagates along any run of well-clocked blocking
operations. -/
theorem runBOps_inv (s : BlockingProtocol) (ops : List BOp) (hinv : BInv s)
    (h : ∀ o ∈ ops, o.wellClocked) : BInv (runBOps s ops) := by
  induction ops generalizing s with
  | nil => exact hinv
  | cons o rest ih =>
      exact ih _ (bOp_step s o hinv (h o (List.mem_cons_self o rest))).1
        fun o' ho' => h o' (List.mem_cons_of_mem o ho')

/-- C1 amended: on both server variants, the stored timestamp of every
key is non-decreasing across any operation sequence in which no `Write`
carries a client timestamp ahead of the wall clock; the unconditional
claim fails (see the counterexample) because a write may install an
arbitrarily large client timestamp that a later write undercuts. -/
theorem c1_store_ts_monotone :
    (∀ (ops : List AWOp), (∀ o ∈ ops, o.client_ts ≤ o.current) →
      ∀ (p : List AWOp) (o : AWOp) (rest : List AWOp), ops = p ++ o :: rest →
      ∀ key, (runAWrites ABDProtocol.init p).GetTimestamp key ≤
        (runAWrites ABDProtocol.init (p ++ [o])).GetTimestamp key) ∧
    (∀ (ops : List BOp), (∀ o ∈ ops, o.wellClocked) →
      ∀ (p : List BOp) (o : BOp) (rest : List BOp), ops = p ++ o :: rest →
      ∀ key, (runBOps BlockingProtocol.init p).GetTimestamp key ≤
        (runBOps BlockingProtocol.init (p ++ [o])).GetTimestamp key) := by
  constructor
  · intro ops h p o rest hsplit key
    have hp : ∀ o' ∈ p, o'.client_ts ≤ o'.current := by
      intro o' ho'
      exact h o' (hsplit ▸ List.mem_append_left _ ho')
    have ho : o.client_ts ≤ o.current :=
      h o (hsplit ▸ List.mem_append_right _ (List.mem_cons_self o rest))
    have hinv := runAWrites_inv ABDProtocol.init p abdInv_init hp
    rw [runAWrites_append]
    exact (abd_write_step _ o hinv ho).2 key
  · intro ops h p o rest hsplit key
    have hp : ∀ o' ∈ p, o'.wellClocked := by
      intro o' ho'
      exact h o' (hsplit ▸ List.mem_append_left _ ho')
    have ho : o.wellClocked :=
      h o (hsplit ▸ List.mem_append_right _ (List.mem_cons_self o rest))
    have hinv := runBOps_inv BlockingProtocol.init p
      ⟨le_refl 0, fun _ => le_refl 0⟩ hp
    rw [runBOps_append]
    have hstep := bOp_step _ o hinv ho
    have : runBOps (runBOps BlockingProtocol.init p) [o] =
        o.apply (runBOps BlockingProtocol.init p) := rfl
    rw [this]
    exact hstep.2 key

/-- Witness for C1 (amended): a concrete well-clocked run on each
variant, with the key's stored timestamp not decreasing at the split. -/
theorem c1_witness :
    (runAWrites ABDProtocol.init [⟨"k", "a", 3, 5⟩]).GetTimestamp "k" ≤
      (runAWrites ABDProtocol.init
        [⟨"k", "a", 3, 5⟩, ⟨"k", "b", 2, 7⟩]).GetTimestamp "k" ∧
    (runBOps BlockingProtocol.init [.acquire "k" 1 0 0]).GetTimestamp "k" ≤
      (runBOps BlockingProtocol.init
        [.acquire "k" 1 0 0, .write "k" "v" 2 1 7]).GetTimestamp "k" := by
  constructor
  · have h := c1_store_ts_monotone.1 [⟨"k", "a", 3, 5⟩, ⟨"k", "b", 2, 7⟩]
      (by intro o ho; fin_cases ho <;> decide)
      [⟨"k", "a", 3, 5⟩] ⟨"k", "b", 2, 7⟩ [] rfl "k"
    simpa using h
  · have h := c1_store_ts_monotone.2 [.acquire "k" 1 0 0, .write "k" "v" 2 1 7]
      (by intro o ho; fin_cases ho <;> simp [BOp.wellClocked])
      [.acquire "k" 1 0 0] (.write "k" "v" 2 1 7) [] rfl "k"
    simpa using h

/-! Claim C2: client timestamp issuance -/

/-- A call to `UpdateTimestamp` leaves the clock strictly above its prior value. -/
theorem lt_updateTimestamp_left (clock t : Int) :
    clock < updateTimestamp clock t := by
  unfold updateTimestamp
  by_cases h : t > clock <;> simp [h] <;> omega

/-- A call to `UpdateTimestamp` leaves the clock strictly above the observed value. -/
theorem lt_updateTimestamp_right (clock t : Int) :
    t < updateTimestamp clock t := by
  unfold updateTimestamp
  by_cases h : t > clock <;> simp [h] <;> omega

/-- A sequence of `UpdateTimestamp` calls never lowers the clock. -/
theorem le_raiseAll (clock : Int) (rs : List Int) : clock ≤ raiseAll clock rs := by
  induction rs generalizing clock with
  | nil => simp [raiseAll]
  | cons r rest ih =>
      have h1 : clock ≤ updateTimestamp clock r :=
        le_of_lt (lt_updateTimestamp_left clock r)
      have h2 : updateTimestamp clock r ≤ raiseAll (updateTimestamp clock r) rest :=
        ih (updateTimestamp clock r)
      simpa [raiseAll] using le_trans h1 h2

/-- After a sequence of `UpdateTimestamp` calls the clock is strictly
above every value fed to it. -/
theorem mem_lt_raiseAll (clock : Int) (rs : List Int) :
    ∀ r ∈ rs, r < raiseAll clock rs := by
  induction rs generalizing clock with
  | nil => simp
  | cons a rest ih =>
      intro r hr
      rcases List.mem_cons.mp hr with h | h
      · subst h
        have h1 : r < updateTimestamp clock r := lt_updateTimestamp_right clock r
        have h2 : updateTimestamp clock r ≤ raiseAll (updateTimestamp clock r) rest :=
          le_raiseAll _ _
        simpa [raiseAll] using lt_of_lt_of_le h1 h2
      · simpa [raiseAll] using ih (updateTimestamp clock a) r h

/-- The phase-2 loop's final clock is `raiseAll` of the acknowledged
timestamps it collected. -/
theorem writeBackLoop_clock (W : Nat) :
    ∀ (acks : List (Option Int)) (written : Nat) (clock : Int),
      (writeBackLoop W acks written clock).1 =
        raiseAll clock (writeBackLoop W acks written clock).2.2 := by
  intro acks
  induction acks with
  | nil => intro written clock; simp [writeBackLoop, raiseAll]
  | cons a rest ih =>
      intro written clock
      by_cases hw : written ≥ W
      · simp [writeBackLoop, hw, raiseAll]
      · cases a with
        | some r =>
            have h := ih (written + 1) (updateTimestamp clock r)
            simpa [writeBackLoop, hw, raiseAll] using h
        | none =>
            have h := ih written clock
            simpa [writeBackLoop, hw] using h

/-- Per-operation clock facts: the clock never decreases across an
operation; every issued timestamp is strictly above the clock at the
start of the operation and strictly below the clock at its end; every
acknowledged timestamp fed to `UpdateTimestamp` is strictly below the
clock at the operation's end. -/
theorem cop_run_facts (clock : Int) (op : COp) :
    clock ≤ (op.run clock).clock ∧
    (∀ t ∈ (op.run clock).issued, clock < t) ∧
    (∀ t ∈ (op.run clock).issued, t < (op.run clock).clock) ∧
    (∀ r ∈ (op.run clock).acked, r < (op.run clock).clock) := by
  cases op with
  | writeOp W n acks =>
      by_cases hn : W > n
      · simp [COp.run, ABDClientWrite, hn]
      · have hupd : updateTimestamp clock (clock + 1) = clock + 2 := by
          unfold updateTimestamp
          rw [if_pos (by omega)]
          omega
        have hclock : (COp.run clock (.writeOp W n acks)).clock =
            raiseAll (clock + 2) (acks.filterMap id) := by
          simp [COp.run, ABDClientWrite, hn, hupd]
        have hiss : (COp.run clock (.writeOp W n acks)).issued = [clock + 1] := by
          simp [COp.run, ABDClientWrite, hn]
        have hack : (COp.run clock (.writeOp W n acks)).acked =
            acks.filterMap id := by
          simp [COp.run, ABDClientWrite, hn]
        have hge : clock + 2 ≤ raiseAll (clock + 2) (acks.filterMap id) :=
          le_raiseAll _ _
        refine ⟨?_, ?_, ?_, ?_⟩
        · rw [hclock]; omega
        · rw [hiss]; intro t ht; simp at ht; omega
        · rw [hiss, hclock]; intro t ht; simp at ht; omega
        · rw [hack, hclock]
          exact mem_lt_raiseAll _ _
  | readOp R W n replies acks =>
      by_cases hn : R > n
      · simp [COp.run, ABDClientRead, hn]
      · by_cases hq : (collectReads R replies 0).length < R
        · simp [COp.run, ABDClientRead, hn, hq]
        · have hwb : clock < max (maxByTs (collectReads R replies 0)).2 clock + 1 := by
            have := le_max_right (maxByTs (collectReads R replies 0)).2 clock
            omega
          set wb := max (maxByTs (collectReads R replies 0)).2 clock + 1 with hwbdef
          have hupd : updateTimestamp clock wb = wb + 1 := by
            unfold updateTimestamp
            rw [if_pos hwb]
          have hclock : (COp.run clock (.readOp R W n replies acks)).clock =
              (writeBackLoop W acks 0 (updateTimestamp clock wb)).1 := by
            simp [COp.run, ABDClientRead, hn, hq]
          have hiss : (COp.run clock (.readOp R W n replies acks)).issued = [wb] := by
            simp [COp.run, ABDClientRead, hn, hq]
          have hack : (COp.run clock (.readOp R W n replies acks)).acked =
              (writeBackLoop W acks 0 (updateTimestamp clock wb)).2.2 := by
            simp [COp.run, ABDClientRead, hn, hq]
          have hge : updateTimestamp clock wb ≤
              (writeBackLoop W acks 0 (updateTimestamp clock wb)).1 := by
            rw [writeBackLoop_clock]
            exact le_raiseAll _ _
          refine ⟨?_, ?_, ?_, ?_⟩
          · rw [hclock]; omega
          · rw [hiss]; intro t ht; simp at ht; omega
          · rw [hiss, hclock]; intro t ht; simp at ht; omega
          · rw [hack, hclock, writeBackLoop_clock]
            exact mem_lt_raiseAll _ _

/-- The client clock never decreases across a sequence of operations. -/
theorem runOps_mono (clock : Int) (ops : List COp) : clock ≤ runOps clock ops := by
  induction ops generalizing clock with
  | nil => simp [runOps]
  | cons op rest ih =>
      exact le_trans (cop_run_facts clock op).1 (ih (op.run clock).clock)

/-- Every timestamp issued during a run is strictly below the final clock. -/
theorem issuedDuring_lt (clock : Int) (ops : List COp) :
    ∀ u ∈ issuedDuring clock ops, u < runOps clock ops := by
  induction ops generalizing clock with
  | nil => simp [issuedDuring]
  | cons op rest ih =>
      intro u hu
      rcases List.mem_append.mp hu with h | h
      · exact lt_of_lt_of_le ((cop_run_facts clock op).2.2.1 u h)
          (runOps_mono (op.run clock).clock rest)
      · exact ih (op.run clock).clock u h

/-- Every acknowledged timestamp fed to `UpdateTimestamp` during a run is
strictly below the final clock. -/
theorem ackedDuring_lt (clock : Int) (ops : List COp) :
    ∀ u ∈ ackedDuring clock ops, u < runOps clock ops := by
  induction ops generalizing clock with
  | nil => simp [ackedDuring]
  | cons op rest ih =>
      intro u hu
      rcases List.mem_append.mp hu with h | h
      · exact lt_of_lt_of_le ((cop_run_facts clock op).2.2.2 u h)
          (runOps_mono (op.run clock).clock rest)
      · exact ih (op.run clock).clock u h

/-- C2 counterexample: a read that collects one successful phase-1 reply
with timestamp 1000 but misses its quorum (R = 2) leaves the clock at 0
— the reply timestamp is observed but never fed to `UpdateTimestamp` —
and the next write issues timestamp 1, which is not greater than the
previously observed 1000. -/
theorem c2_counterexample :
    seenDuring 0
      [.readOp 2 2 3 [some ("v", 1000), none, none] [], .writeOp 2 3 []] =
      [1000] ∧
    issuedDuring 0
      [.readOp 2 2 3 [some ("v", 1000), none, none] [], .writeOp 2 3 []] =
      [1] ∧
    ¬((1000 : Int) < 1) := by
  decide

/-- C2 amended: every timestamp a client issues (for a write or a read
write-back) is strictly greater than every timestamp it previously
issued and every timestamp it previously fed to `UpdateTimestamp` from a
server acknowledgment.  Timestamps merely observed in phase-1 read
replies are not incorporated into the clock (see the counterexample), so
they are excluded. -/
theorem c2_issued_dominates (c0 : Int) (p : List COp) (op : COp) (t : Int)
    (ht : t ∈ (op.run (runOps c0 p)).issued) :
    (∀ u ∈ issuedDuring c0 p, u < t) ∧ (∀ u ∈ ackedDuring c0 p, u < t) := by
  have hgt : runOps c0 p < t := (cop_run_facts (runOps c0 p) op).2.1 t ht
  exact ⟨fun u hu => lt_trans (issuedDuring_lt c0 p u hu) hgt,
    fun u hu => lt_trans (ackedDuring_lt c0 p u hu) hgt⟩

/-- Witness for C2 (amended): after a write that issued 1 and absorbed an
acknowledgment 5, the next write issues 7, strictly above both. -/
theorem c2_witness :
    (7 : Int) ∈
      (COp.run (runOps 0 [.writeOp 1 1 [some 5]]) (.writeOp 1 1 [])).issued ∧
    (1 : Int) < 7 ∧ (5 : Int) < 7 := by
  have h := c2_issued_dominates 0 [.writeOp 1 1 [some 5]] (.writeOp 1 1 []) 7
    (by decide)
  exact ⟨by decide, h.1 1 (by decide), h.2 5 (by decide)⟩

end KVStore
